import Mathlib

/-!
Verification of the `simple_file_server_bounty` HTTP file server.

The development shallowly embeds the Rust sources (`src/http/request.rs`,
`src/http/response.rs`, `src/main.rs`) into Lean.  Strings are modelled by
Lean `String` (lists of characters); byte sequences by `List Nat` with
values below 256; the filesystem consumed by the Response Builder is an
explicit tree parameter; the ambient current working directory of the
process is an explicit `serverRoot` parameter; fallible Rust functions
returning `io::Result` become `Except IoErr`.
-/

/-! ## Generic string helpers (models of the Rust `str` methods used) -/

/-- Model of Rust `str::split_once(pat)` over character lists: splits at the
first occurrence of the pattern, returning the parts before and after it. -/
def splitOnceList (sep : List Char) : List Char → Option (List Char × List Char)
  | [] => if sep.isPrefixOf ([] : List Char) then some ([], []) else none
  | c :: cs =>
    if sep.isPrefixOf (c :: cs) then some ([], (c :: cs).drop sep.length)
    else (splitOnceList sep cs).map (fun p => (c :: p.1, p.2))

/-- Model of Rust `str::split_once` on `String`. -/
def splitOnceStr (s sep : String) : Option (String × String) :=
  (splitOnceList sep.data s.data).map (fun p => (⟨p.1⟩, ⟨p.2⟩))

/-- Model of Rust `str::split(p)` for a character predicate: splits at every
character satisfying `p`, keeping empty pieces (as Rust `split` does). -/
def splitWhen (p : Char → Bool) : List Char → List (List Char)
  | [] => [[]]
  | c :: cs => if p c then [] :: splitWhen p cs else (splitWhen p cs).modifyHead (c :: ·)

/-- Model of Rust `str::split(c)` for a single separator character. -/
def splitChar (sep : Char) (l : List Char) : List (List Char) :=
  splitWhen (· = sep) l

/-- Rust `char::is_ascii_whitespace`: space, tab, newline, form feed, carriage
return. -/
def isAsciiWhitespace (c : Char) : Bool :=
  c = ' ' || c = '\t' || c = '\n' || c = Char.ofNat 12 || c = '\r'

/-- Model of Rust `str::split_ascii_whitespace`: whitespace-separated tokens,
empty tokens skipped. -/
def asciiTokens (s : String) : List String :=
  ((splitWhen isAsciiWhitespace s.data).filter (· ≠ [])).map (fun l => ⟨l⟩)

/-- Model of Rust `str::trim_start_matches('/')`: drops every leading `/`. -/
def trimStartSlashes (s : String) : String :=
  ⟨s.data.dropWhile (· = '/')⟩

/-- Model of Rust `[&str]::join(sep)` / iterator `intercalate` over character
lists. -/
def joinSep (sep : Char) : List (List Char) → List Char
  | [] => []
  | [l] => l
  | l :: ls => l ++ sep :: joinSep sep ls

/-! ## Request parsing (`src/http/request.rs`) -/

/-- HTTP method enumeration from `request.rs`. -/
inductive Method where
  | Get
  | Post
  | Uninitialized
deriving DecidableEq, Repr

/-- Model of `Method::new`: first space-delimited token of the line before the
first CRLF, `GET`/`POST` recognized, anything else `Uninitialized`. -/
def Method.new (request : String) : Method :=
  match splitOnceStr request "\r\n" with
  | some (methodLine, _) =>
    match splitOnceStr methodLine " " with
    | some (method, _) =>
      if method = "GET" then .Get
      else if method = "POST" then .Post
      else .Uninitialized
    | none => .Uninitialized
  | none => .Uninitialized

/-- The requested resource, from `request.rs`. -/
structure Resource where
  path : String
deriving DecidableEq, Repr

/-- Model of `Resource::new`: the text strictly between the first and second
space of the request line, with leading slashes stripped; `none` when the
request has no CRLF or the request line has fewer than two spaces. -/
def Resource.new (request : String) : Option Resource :=
  (splitOnceStr request "\r\n").bind fun p =>
    (splitOnceStr p.1 " ").bind fun q =>
      (splitOnceStr q.2 " ").map fun r =>
        { path := trimStartSlashes r.1 }

/-- HTTP version enumeration from `request.rs`. -/
inductive Version where
  | V1_1
  | V2_0
deriving DecidableEq, Repr

/-- Version parse error carrying its message, from `request.rs`. -/
structure VersionError where
  msg : String
deriving DecidableEq, Repr

/-- The scan loop inside `Version::from_str`: first token equal to `HTTP/1.1`
gives `V1_1`; first token equal to `HTTP/2` or `HTTP/2.0` gives `V2_0`. -/
def scanVersion : List String → Option Version
  | [] => none
  | t :: ts =>
    if t = "HTTP/1.1" then some .V1_1
    else if t = "HTTP/2" ∨ t = "HTTP/2.0" then some .V2_0
    else scanVersion ts

/-- Model of `Version::from_str`: splits off the line before the first CRLF,
scans its whitespace tokens; no CRLF or no matching token is an error carrying
the whole request. -/
def Version.fromStr (request : String) : Except VersionError Version :=
  match splitOnceStr request "\r\n" with
  | some (methodLine, _) =>
    match scanVersion (asciiTokens methodLine) with
    | some v => .ok v
    | none => .error { msg := "Unknown protocol version in " ++ request }
  | none => .error { msg := "Unknown protocol version in " ++ request }

/-- Model of `Version::new`, which defers to `from_str`. -/
def Version.new (request : String) : Except VersionError Version :=
  Version.fromStr request

/-- Header map from `request.rs`; the `HashMap` is modelled as an association
list where inserting an existing key overwrites it (last duplicate wins). -/
structure HttpHeader where
  headers : List (String × String)
deriving DecidableEq, Repr

/-- Insertion into the modelled header map: replaces an existing binding. -/
def insertHeader (hs : List (String × String)) (k v : String) : List (String × String) :=
  if hs.any (fun p => p.1 = k) then hs.map (fun p => if p.1 = k then (k, v) else p)
  else hs ++ [(k, v)]

/-- Model of Rust `str::split("\r\n")` over character lists: split at every
(leftmost-first) occurrence of CRLF, keeping empty pieces. -/
def splitCrlf : List Char → List (List Char)
  | [] => [[]]
  | '\r' :: '\n' :: cs => [] :: splitCrlf cs
  | c :: cs => (splitCrlf cs).modifyHead (c :: ·)

/-- Model of Rust `str::trim` (drops surrounding whitespace; the claims only
exercise it on ASCII, where Lean `Char.isWhitespace` and Rust
`char::is_whitespace` agree). -/
def trimStr (s : String) : String :=
  ⟨((s.data.dropWhile Char.isWhitespace).reverse.dropWhile Char.isWhitespace).reverse⟩

/-- Model of Rust `str::split_terminator("\r\n")`: like `split` but without a
trailing empty piece when the string ends with the separator. -/
def splitTerminatorCrlf (s : String) : List String :=
  let parts := (splitCrlf s.data).map (fun l => (⟨l⟩ : String))
  match parts.getLast? with
  | some "" => (parts.dropLast)
  | _ => parts

/-- The header loop of `HttpHeader::new`: stops at an empty line; a line
without a colon makes the whole parse fail (the `?` inside the loop). -/
def headerLoop (acc : List (String × String)) : List String → Option (List (String × String))
  | [] => some acc
  | line :: rest =>
    if line = "" then some acc
    else
      match splitOnceStr line ":" with
      | none => none
      | some p => headerLoop (insertHeader acc (trimStr p.1) (trimStr p.2)) rest

/-- Model of `HttpHeader::new`: everything after the first CRLF, split on
CRLF terminators, parsed by `headerLoop`. -/
def HttpHeader.new (request : String) : Option HttpHeader :=
  (splitOnceStr request "\r\n").bind fun p =>
    (headerLoop [] (splitTerminatorCrlf p.2)).map fun hs => { headers := hs }

/-- The parsed HTTP request, from `request.rs`. -/
structure HttpRequest where
  method : Method
  resource : Resource
  version : Version
  headers : HttpHeader
  request_body : String
deriving DecidableEq, Repr

/-- Error type standing for Rust `std::io::Error` at the granularity the code
observes: `canonicalize` on a missing path fails with `NotFound`; the
`InvalidData` constructor carries a version-parse message. -/
inductive IoErr where
  | notFound
  | invalidData (msg : String)
deriving DecidableEq, Repr

/-- Model of `HttpRequest::new`: method and resource fall back to sentinels;
a version error is propagated as `InvalidData`; headers fall back to an empty
map; the body is everything after the first blank-line separator. -/
def HttpRequest.new (request : String) : Except IoErr HttpRequest :=
  let method := Method.new request
  let resource := (Resource.new request).getD { path := "" }
  match Version.new request with
  | .error err => .error (.invalidData err.msg)
  | .ok version =>
    let headers := (HttpHeader.new request).getD { headers := [] }
    let request_body :=
      match splitOnceStr request "\r\n\r\n" with
      | some p => p.2
      | none => ""
    .ok { method, resource, version, headers, request_body }

/-! ## Bytes, UTF-8 and percent encoding -/

/-- UTF-8 encoding of one character as byte values. -/
def utf8Bytes (c : Char) : List Nat :=
  let n := c.toNat
  if n < 128 then [n]
  else if n < 2048 then [192 + n / 64, 128 + n % 64]
  else if n < 65536 then [224 + n / 4096, 128 + (n / 64) % 64, 128 + n % 64]
  else [240 + n / 262144, 128 + (n / 4096) % 64, 128 + (n / 64) % 64, 128 + n % 64]

/-- UTF-8 encoding of a string as byte values (model of Rust
`String::into_bytes` / `str::as_bytes`). -/
def strBytes (s : String) : List Nat :=
  s.data.foldr (fun c acc => utf8Bytes c ++ acc) []

/-- Model of Rust `String::from_utf8_lossy`, byte-wise: faithful for ASCII
input (every byte below 128, including NUL); a byte at or above 128 becomes
the replacement character.  Every buffer this file instantiates it on is
ASCII. -/
def decodeLossy (bytes : List Nat) : String :=
  ⟨bytes.map (fun b => if b < 128 then Char.ofNat b else Char.ofNat 65533)⟩

/-- Value of an ASCII hex digit. -/
def hexVal (c : Char) : Option Nat :=
  if '0' ≤ c ∧ c ≤ '9' then some (c.toNat - '0'.toNat)
  else if 'a' ≤ c ∧ c ≤ 'f' then some (c.toNat - 'a'.toNat + 10)
  else if 'A' ≤ c ∧ c ≤ 'F' then some (c.toNat - 'A'.toNat + 10)
  else none

/-- Model of `percent_encoding::percent_decode_str(..).decode_utf8_lossy()`
at character level: each `%hh` with two hex digits becomes the character with
that code, other characters pass through.  Faithful for ASCII data (all paths
in this development); multi-byte percent sequences are not reassembled. -/
def percentDecodeChars : List Char → List Char
  | [] => []
  | '%' :: h1 :: h2 :: rest =>
    match hexVal h1, hexVal h2 with
    | some a, some b => Char.ofNat (16 * a + b) :: percentDecodeChars rest
    | _, _ => '%' :: percentDecodeChars (h1 :: h2 :: rest)
  | c :: rest => c :: percentDecodeChars rest

/-- Uppercase hex digit for a value below 16. -/
def hexDigitUpper (n : Nat) : Char :=
  if n < 10 then Char.ofNat ('0'.toNat + n) else Char.ofNat ('A'.toNat + n - 10)

/-- Percent-escape of one byte value. -/
def percentByte (b : Nat) : List Char :=
  ['%', hexDigitUpper (b / 16), hexDigitUpper (b % 16)]

/-- Characters kept verbatim by `url_escape::encode_component`: ASCII
alphanumerics and `-_.!~*()` plus the apostrophe (the `encodeURIComponent`
set of the WHATWG component percent-encode set). -/
def isComponentSafe (c : Char) : Bool :=
  c.isAlphanum || c = '-' || c = '_' || c = '.' || c = '!' || c = '~' ||
    c = '*' || c = Char.ofNat 39 || c = '(' || c = ')'

/-- Model of `url_escape::encode_component` (external crate, consumed through
the percent-encoding interface): safe characters pass through, every other
character is UTF-8 encoded and percent-escaped byte by byte. -/
def encodeComponent (s : String) : String :=
  ⟨s.data.foldr
    (fun c acc =>
      (if isComponentSafe c then [c]
       else (utf8Bytes c).foldr (fun b acc2 => percentByte b ++ acc2) []) ++ acc) []⟩

/-- Model of the one `str::replace` call of the source,
`resource.replace("%2F", "/")`: every non-overlapping occurrence of `%2F`,
scanned left to right, becomes `/`. -/
def replacePercent2F : List Char → List Char
  | [] => []
  | '%' :: '2' :: 'F' :: rest => '/' :: replacePercent2F rest
  | c :: rest => c :: replacePercent2F rest

/-! ## Filesystem model

The server consumes the filesystem through `exists`/`is_file`/`is_dir`,
`canonicalize`, `File::open`+`read_to_end` and `WalkDir` (immediate children).
It is modelled as an explicit in-memory tree without symlinks; `canonicalize`
is the symlink-free `realpath`: components are resolved left to right, every
named component must exist (and be a directory when it is not last), `.` is
skipped, `..` pops (staying at the root when already there), and the whole
call fails exactly when some component does not exist. -/

inductive FsNode where
  | file (content : List Nat)
  | dir (children : List (String × FsNode))
deriving Repr

/-- Immediate child of a directory node by name. -/
def FsNode.lookupChild : FsNode → String → Option FsNode
  | .file _, _ => none
  | .dir cs, name => (cs.find? (fun p => p.1 == name)).map (fun p => p.2)

/-- Node at an absolute component path. -/
def FsNode.lookupPath : FsNode → List String → Option FsNode
  | n, [] => some n
  | n, c :: cs =>
    match n.lookupChild c with
    | some m => FsNode.lookupPath m cs
    | none => none

/-- Worker for `canonicalize`: `acc` is the already-resolved existing part. -/
def canonAux (fs : FsNode) (acc : List String) : List String → Option (List String)
  | [] => some acc
  | c :: cs =>
    if c = "." then canonAux fs acc cs
    else if c = ".." then canonAux fs acc.dropLast cs
    else
      match FsNode.lookupPath fs (acc ++ [c]) with
      | none => none
      | some (.file _) => if cs = [] then canonAux fs (acc ++ [c]) cs else none
      | some (.dir _) => canonAux fs (acc ++ [c]) cs

/-- Model of `Path::canonicalize` over the filesystem tree (symlink-free
`realpath`); fails, as the Rust call does, when the path does not exist. -/
def canonicalize (fs : FsNode) (p : List String) : Option (List String) :=
  canonAux fs [] p

/-- Component list of a path string as Rust `Path::components` yields it for
the strings in play: split on `/`, empty and `.` pieces dropped, `..` kept. -/
def pathComponents (s : String) : List String :=
  ((splitChar '/' s.data).map (fun l => (⟨l⟩ : String))).filter
    (fun c => c != "" && c != ".")

/-- Model of `PathBuf::join` at component level: an absolute right operand
replaces the left one. -/
def joinPath (root : List String) (resource : String) : List String :=
  match resource.data with
  | '/' :: _ => pathComponents resource
  | _ => root ++ pathComponents resource

/-- Rust `Path::components().count()` for an absolute path: the leading
`RootDir` component is counted too. -/
def rustComponentCount (p : List String) : Nat :=
  p.length + 1

/-- Model of `Path::extension` on a file name: the part after the last dot,
none when there is no dot or the only dot is the leading one. -/
def extOfName (name : String) : Option String :=
  let parts := (splitWhen (· = '.') name.data).map (fun l => (⟨l⟩ : String))
  match parts with
  | [] => none
  | [_] => none
  | first :: _ =>
    if first = "" ∧ parts.length = 2 then none else parts.getLast?

/-- Model of `Path::extension` on a component path: extension of the last
component (`..` has no file name, hence no extension). -/
def pathExtension (p : List String) : Option String :=
  match p.getLast? with
  | none => none
  | some name => if name = ".." then none else extOfName name

/-! ## Content classification (`response.rs` lines 69-78) -/

/-- The extension allow-list of `response.rs` line 73. -/
def textExtensions : List String :=
  ["txt", "rs", "lock", "png", "json", "TAG", "toml", "md"]

/-- The ordered classifier of `response.rs`: sniffed type first, then the
text-extension allow-list, then the binary fallback.  `sniff` stands for
`infer::get`. -/
def classify (sniff : List Nat → Option String) (content : List Nat)
    (ext : Option String) : String :=
  match sniff content with
  | some t => t
  | none =>
    match ext with
    | some e => if e ∈ textExtensions then "text/plain" else "application/octet-stream"
    | none => "application/octet-stream"

/-- Model of the external `infer` crate's `infer::get`, restricted to the PNG
and JPEG magic numbers (the crate is an external dependency consumed through
the "guess content type from bytes" interface; no byte sequence in this file
matches any of its other signatures — in particular plain ASCII text matches
none, so `infer::get` returns `None` on it, as the crate does). -/
def inferGet (content : List Nat) : Option String :=
  if [137, 80, 78, 71, 13, 10, 26, 10].isPrefixOf content then some "image/png"
  else if [255, 216, 255].isPrefixOf content then some "image/jpeg"
  else none

/-! ## Response building (`src/http/response.rs`) -/

/-- HTTP response status enumeration from `response.rs`. -/
inductive ResponseStatus where
  | OK
  | NotFound
deriving DecidableEq, Repr

/-- Model of the `Display` impl for `ResponseStatus`. -/
def ResponseStatus.display : ResponseStatus → String
  | .OK => "200 OK"
  | .NotFound => "404 Not Found"

/-- Accept-Ranges header values from `response.rs`. -/
inductive AcceptRanges where
  | Bytes
  | None
deriving DecidableEq, Repr

/-- The HTTP response record from `response.rs`. -/
structure HttpResponse where
  version : Version
  status : ResponseStatus
  content_length : Nat
  accept_ranges : AcceptRanges
  response_body : List Nat
  current_path : String
  content_type : String
deriving DecidableEq, Repr

/-- The base URL baked into directory listings (`response.rs` line 56). -/
def baseUrl : String := "http://localhost:5500"

/-- The raw opening HTML of a directory listing, byte for byte the raw string
of `response.rs` lines 86-92 (note the trailing blanks inside it). -/
def beginHtmlRaw : String :=
  "\n                <!DOCTYPE html> \n                <html> \n                <head> \n                    <meta charset=\"utf-8\"> \n                </head> \n                <body>"

/-- The raw closing HTML of a directory listing (`response.rs` lines 143-145). -/
def endHtmlRaw : String :=
  "\n                </body>\n                </html>"

/-- The go-up target of `response.rs` lines 98-105: all `/`-separated pieces
of the decoded resource except the last, rejoined with `/` (the split always
yields at least one piece, so the `else` arm of the source is dead). -/
def oneStepBackPath (resource : String) : String :=
  let components := splitChar '/' resource.data
  if components.length ≥ 1 then ⟨joinSep '/' components.dropLast⟩
  else "/"

/-- The go-back anchor of `response.rs` lines 107-111. -/
def goBackLink (resource : String) : String :=
  "<a href=\"" ++ baseUrl ++ "/" ++ encodeComponent (oneStepBackPath resource)
    ++ "\">Go back up a directory</a>"

/-- The listing header of `response.rs` lines 95 and 114-117: the decoded
path shown in an `h1`, then the go-back link. -/
def dirHeader (resource : String) : String :=
  "<h1>Currently in "
    ++ (⟨replacePercent2F resource.data⟩ : String)
    ++ "</h1>" ++ goBackLink resource ++ "<br><hr>"

/-- One child entry of the listing loop (`response.rs` lines 121-141): the
href gets the percent-encoded child name appended to the resource path, the
link text is the verbatim name, with a trailing slash for directories. -/
def childLink (resource : String) (child : String × FsNode) : String :=
  let file_url := encodeComponent child.1
  match child.2 with
  | .dir _ =>
    "<div><a href=\"" ++ baseUrl ++ "/" ++ (resource ++ "/" ++ file_url)
      ++ "\">" ++ child.1 ++ "/</a></div>"
  | .file _ =>
    "<div><a href=\"" ++ baseUrl ++ "/" ++ (resource ++ "/" ++ file_url)
      ++ "\">" ++ child.1 ++ "</a></div>"

/-- The full directory-listing page: opening HTML, header, one entry per
immediate child in directory order (`WalkDir` with `min_depth(1)` and
`max_depth(1)` yields exactly the immediate children), closing HTML. -/
def dirHtml (resource : String) (children : List (String × FsNode)) : String :=
  beginHtmlRaw ++ dirHeader resource
    ++ String.join (children.map (childLink resource)) ++ endHtmlRaw

/-- The 404 page of `response.rs` lines 156-159, naming the raw requested
path. -/
def notFoundHtml (path : String) : String :=
  "<html><body><h1>404 Not Found</h1><p>The requested resource <strong>"
    ++ path ++ "</strong> was not found on this server.</p></body></html>"

/-- Model of `HttpResponse::new`.  `sniff` stands for the external
`infer::get`; `fs` is the filesystem tree; `serverRoot` is the process
current working directory read by `std::env::current_dir()` (made an explicit
parameter).  The two `canonicalize()?` calls of lines 40-41 are the `.error`
exits; existence/kind tests and the file read, performed by the source on the
uncanonicalized joined path, are modelled by looking the canonical path up in
the tree, which in a symlink-free filesystem resolves identically. -/
def HttpResponse.new (sniff : List Nat → Option String) (fs : FsNode)
    (serverRoot : List String) (request : HttpRequest) :
    Except IoErr HttpResponse :=
  let version := Version.V1_1
  let current_path := request.resource.path
  let resource : String := ⟨percentDecodeChars request.resource.path.data⟩
  let new_path := joinPath serverRoot resource
  match canonicalize fs serverRoot with
  | none => .error .notFound
  | some rootCanon =>
    match canonicalize fs new_path with
    | none => .error .notFound
    | some resourceCanon =>
      if rustComponentCount rootCanon > rustComponentCount resourceCanon then
        .ok { version, status := .NotFound, content_length := 0,
              accept_ranges := .None, response_body := [], current_path,
              content_type := "text/plain" }
      else
        match FsNode.lookupPath fs resourceCanon with
        | some (.file content) =>
          .ok { version, status := .OK, content_length := content.length,
                accept_ranges := .Bytes, response_body := content, current_path,
                content_type := classify sniff content (pathExtension new_path) }
        | some (.dir children) =>
          let body := strBytes (dirHtml resource children)
          .ok { version, status := .OK, content_length := body.length,
                accept_ranges := .None, response_body := body, current_path,
                content_type := "text/html" }
        | none =>
          let body := strBytes (notFoundHtml request.resource.path)
          .ok { version, status := .NotFound, content_length := body.length,
                accept_ranges := .None, response_body := body, current_path,
                content_type := "text/html" }

/-! ## Connection handler (`src/main.rs`) -/

/-- The read of `handle_client` lines 18-19: a zero-initialized 1024-byte
buffer filled by a single `read`, modelled as taking the first
`min(len, 1024)` incoming bytes and keeping the zero padding. -/
def handleBuffer (incoming : List Nat) : List Nat :=
  incoming.take 1024 ++ List.replicate (1024 - min incoming.length 1024) 0

/-- The string handed to the parser (`main.rs` line 21): lossy UTF-8 of the
whole 1024-byte buffer, trailing zeros included. -/
def handleRequestString (incoming : List Nat) : String :=
  decodeLossy (handleBuffer incoming)

/-- The header block serialized by `handle_client` lines 29-32: a fixed
`HTTP/1.1 200 OK` status line whatever the response's status field says,
then Content-Length and Content-Type. -/
def responseHeaders (r : HttpResponse) : String :=
  "HTTP/1.1 200 OK\r\nContent-Length: " ++ toString r.content_length
    ++ "\r\nContent-Type: " ++ r.content_type ++ "\r\n\r\n"

/-- Everything `handle_client` writes onto the socket (lines 35-36): the
header block then the body bytes. -/
def serializedOutput (r : HttpResponse) : List Nat :=
  strBytes (responseHeaders r) ++ r.response_body

/-- The status line of a serialized byte stream: the part before the first
CRLF. -/
def statusLineOf (s : String) : Option String :=
  (splitOnceStr s "\r\n").map (fun p => p.1)

/-! ## Concrete fixtures used by witnesses and counterexamples -/

set_option maxRecDepth 10000

/-- A root directory holding `readme.txt` with content `hello` (the spec's
end-to-end example). -/
def fsReadme : FsNode := .dir [("readme.txt", .file (strBytes "hello"))]

/-- The parsed form of `GET /readme.txt HTTP/1.1\r\nHost: x\r\n\r\n`. -/
def reqReadme : HttpRequest :=
  { method := Method.Get, resource := { path := "readme.txt" },
    version := Version.V1_1, headers := { headers := [("Host", "x")] },
    request_body := "" }

/-- The response the server builds for `reqReadme` against `fsReadme`. -/
def respReadme : HttpResponse :=
  { version := Version.V1_1, status := ResponseStatus.OK, content_length := 5,
    accept_ranges := AcceptRanges.Bytes, response_body := strBytes "hello",
    current_path := "readme.txt", content_type := "text/plain" }

/-- The parsed form of the readme request after passing through the 1024-byte
zero-padded read buffer: the body carries the 987 padding NUL characters. -/
def reqPadded : HttpRequest :=
  { method := Method.Get, resource := { path := "readme.txt" },
    version := Version.V1_1, headers := { headers := [("Host", "x")] },
    request_body := ⟨List.replicate 987 (Char.ofNat 0)⟩ }

/-- A filesystem whose root holds `srv/public` (the server root) and a
sibling secret file outside it. -/
def fsTraversal : FsNode :=
  .dir [("srv", .dir [("public", .dir [("pub.txt", .file (strBytes "pub"))]),
                      ("secret.txt", .file (strBytes "top secret"))])]

/-- The parsed form of `GET /../secret.txt HTTP/1.1\r\n\r\n`. -/
def reqTraversal : HttpRequest :=
  { method := Method.Get, resource := { path := "../secret.txt" },
    version := Version.V1_1, headers := { headers := [] },
    request_body := "" }

/-- The parsed form of `GET /missing.txt HTTP/1.1\r\n\r\n`. -/
def reqMissing : HttpRequest :=
  { method := Method.Get, resource := { path := "missing.txt" },
    version := Version.V1_1, headers := { headers := [] },
    request_body := "" }

/-- A root holding a directory `docs` with an immediate file child `a.txt`
and an immediate directory child `sub` that itself has a grandchild. -/
def fsDocs : FsNode :=
  .dir [("docs", .dir [("a.txt", .file (strBytes "A")),
                       ("sub", .dir [("grand.txt", .file (strBytes "G"))])])]

/-- The parsed form of `GET /docs HTTP/1.1\r\n\r\n`. -/
def reqDocs : HttpRequest :=
  { method := Method.Get, resource := { path := "docs" },
    version := Version.V1_1, headers := { headers := [] },
    request_body := "" }

/-- The PNG magic number followed by two content bytes. -/
def pngBytes : List Nat := [137, 80, 78, 71, 13, 10, 26, 10, 0, 1]

/-- A root holding a PNG-signature file whose name carries a `.txt`
extension. -/
def fsPng : FsNode := .dir [("image.txt", .file pngBytes)]

/-- The parsed form of `GET /image.txt HTTP/1.1\r\n\r\n`. -/
def reqPng : HttpRequest :=
  { method := Method.Get, resource := { path := "image.txt" },
    version := Version.V1_1, headers := { headers := [] },
    request_body := "" }

/-- The parsed form of the tab-separated request line
`GET\t/x HTTP/1.1\r\n\r\n`: the resource falls back to the empty path. -/
def reqTab : HttpRequest :=
  { method := Method.Uninitialized, resource := { path := "" },
    version := Version.V1_1, headers := { headers := [] },
    request_body := "" }

/-- The response the buggy containment check lets through for
`../secret.txt`: the sibling secret file, served with status OK. -/
def respTraversal : HttpResponse :=
  { version := Version.V1_1, status := ResponseStatus.OK, content_length := 10,
    accept_ranges := AcceptRanges.Bytes, response_body := strBytes "top secret",
    current_path := "../secret.txt", content_type := "text/plain" }

/-- The immediate children of the `docs` directory of `fsDocs`. -/
def docsChildren : List (String × FsNode) :=
  [("a.txt", .file (strBytes "A")),
   ("sub", .dir [("grand.txt", .file (strBytes "G"))])]

/-! ## Helper lemmas about the splitters -/

theorem isPrefixOf_self_append (l t : List Char) : l.isPrefixOf (l ++ t) = true := by
  induction l with
  | nil => simp [List.isPrefixOf]
  | cons a l ih => simp [List.isPrefixOf, ih]

theorem splitOnceList_cons_append (c₀ : Char) (sep' x s : List Char)
    (hx : c₀ ∉ x) (hs : (c₀ :: sep').isPrefixOf s = true) :
    splitOnceList (c₀ :: sep') (x ++ s) = some (x, s.drop (sep'.length + 1)) := by
  induction x with
  | nil =>
    cases s with
    | nil => simp [List.isPrefixOf] at hs
    | cons a as =>
      simp only [List.nil_append, splitOnceList]
      rw [if_pos hs]
      rfl
  | cons a x ih =>
    have ha : ¬ (c₀ = a) := fun h => hx (h ▸ List.mem_cons_self a x)
    have hxtail : c₀ ∉ x := fun h => hx (List.mem_cons_of_mem a h)
    simp only [List.cons_append, splitOnceList, List.append_eq]
    rw [if_neg (by simp [List.isPrefixOf, Bool.and_eq_true, beq_iff_eq, ha])]
    rw [ih hxtail]
    rfl

theorem splitOnceList_eq_none (c₀ : Char) (sep' l : List Char) (h : c₀ ∉ l) :
    splitOnceList (c₀ :: sep') l = none := by
  induction l with
  | nil => simp [splitOnceList, List.isPrefixOf]
  | cons a l ih =>
    have ha : ¬ (c₀ = a) := fun h' => h (h' ▸ List.mem_cons_self a l)
    have htail : c₀ ∉ l := fun h' => h (List.mem_cons_of_mem a h')
    simp only [splitOnceList, List.append_eq]
    rw [if_neg (by simp [List.isPrefixOf, Bool.and_eq_true, beq_iff_eq, ha])]
    rw [ih htail]
    rfl

theorem splitOnceStr_append_sep (x sep rest : String) (c₀ : Char) (sep' : List Char)
    (hsep : sep.data = c₀ :: sep') (hx : c₀ ∉ x.data) :
    splitOnceStr (x ++ (sep ++ rest)) sep = some (x, rest) := by
  have hdata : (x ++ (sep ++ rest)).data = x.data ++ (sep.data ++ rest.data) := by
    simp [String.data_append]
  unfold splitOnceStr
  rw [hdata, hsep]
  rw [splitOnceList_cons_append c₀ sep' x.data (c₀ :: sep' ++ rest.data) hx
    (isPrefixOf_self_append (c₀ :: sep') rest.data)]
  have hdrop : (c₀ :: sep' ++ rest.data).drop (sep'.length + 1) = rest.data := by
    simp
  rw [hdrop]
  rfl

theorem splitOnceStr_eq_none (s sep : String) (c₀ : Char) (sep' : List Char)
    (hsep : sep.data = c₀ :: sep') (h : c₀ ∉ s.data) :
    splitOnceStr s sep = none := by
  unfold splitOnceStr
  rw [hsep, splitOnceList_eq_none c₀ sep' s.data h]
  rfl

/-! ## Claim C9: the serialized status line is always `HTTP/1.1 200 OK` -/

/-- C9: for every response, the status line the connection handler serializes
onto the socket is the fixed string `HTTP/1.1 200 OK`, whatever the
response's `status` field is — in particular also when the status is
`NotFound`. -/
theorem statusLine_always_200 (r : HttpResponse) :
    statusLineOf (responseHeaders r) = some "HTTP/1.1 200 OK" := by
  have hshape : responseHeaders r =
      "HTTP/1.1 200 OK" ++ ("\r\n" ++ ("Content-Length: " ++ toString r.content_length
        ++ "\r\nContent-Type: " ++ r.content_type ++ "\r\n\r\n")) := rfl
  unfold statusLineOf
  rw [hshape, splitOnceStr_append_sep "HTTP/1.1 200 OK" "\r\n" _ '\r' ['\n'] rfl
    (by decide)]
  rfl

/-! ## Claim C10: the 1024-byte read buffer -/

/-- C10: the connection handler hands the parser a string built from exactly
the first `min(len, 1024)` incoming bytes plus the buffer's zero padding:
the buffer never depends on bytes beyond the first 1024, it is always exactly
1024 bytes long, a shorter read keeps the trailing zero bytes in the parsed
string, and concretely a 37-byte GET request parses into a request whose body
is 987 NUL characters. -/
theorem handler_buffer_1024 :
    (∀ incoming : List Nat, handleBuffer incoming = handleBuffer (incoming.take 1024)) ∧
    (∀ incoming : List Nat, (handleBuffer incoming).length = 1024) ∧
    (∀ incoming : List Nat, incoming.length ≤ 1024 →
      handleRequestString incoming =
        decodeLossy incoming ++ (⟨List.replicate (1024 - incoming.length) (Char.ofNat 0)⟩ : String)) ∧
    (∃ r, HttpRequest.new (handleRequestString
        (strBytes "GET /readme.txt HTTP/1.1\r\nHost: x\r\n\r\n")) = .ok r ∧
      r.request_body = (⟨List.replicate 987 (Char.ofNat 0)⟩ : String)) := by
  refine ⟨?_, ?_, ?_, ?_⟩
  · intro incoming
    have hcount : 1024 - min incoming.length 1024 =
        1024 - min (incoming.take 1024).length 1024 := by
      simp [List.length_take]
      omega
    unfold handleBuffer
    rw [List.take_take, hcount]
    simp
  · intro incoming
    simp [handleBuffer]
    omega
  · intro incoming hlen
    unfold handleRequestString handleBuffer decodeLossy
    rw [List.take_of_length_le hlen]
    have hmin : min incoming.length 1024 = incoming.length := by omega
    rw [hmin, List.map_append, List.map_replicate]
    rfl
  · exact ⟨reqPadded, by rfl, rfl⟩

/-- Witness for C10: the third conjunct applied to a concrete 3-byte read. -/
theorem handler_buffer_1024_witness :
    ([7, 8, 9] : List Nat).length ≤ 1024 ∧
    handleRequestString [7, 8, 9] =
      decodeLossy [7, 8, 9] ++ (⟨List.replicate 1021 (Char.ofNat 0)⟩ : String) :=
  ⟨by decide, handler_buffer_1024.2.2.1 [7, 8, 9] (by decide)⟩

/-! ## Claim C3: version acceptance -/

theorem scanVersion_eq_some_iff (ts : List String) :
    (∃ v, scanVersion ts = some v) ↔
      ∃ t ∈ ts, t = "HTTP/1.1" ∨ t = "HTTP/2" ∨ t = "HTTP/2.0" := by
  induction ts with
  | nil => simp [scanVersion]
  | cons t ts ih =>
    by_cases h1 : t = "HTTP/1.1"
    · subst h1
      simp [scanVersion]
    · by_cases h2 : t = "HTTP/2" ∨ t = "HTTP/2.0"
      · simp [scanVersion, h1, h2]
      · have hstep : scanVersion (t :: ts) = scanVersion ts := by
          simp [scanVersion, h1, h2]
        rw [hstep, ih]
        constructor
        · rintro ⟨u, hu, hm⟩
          exact ⟨u, List.mem_cons_of_mem _ hu, hm⟩
        · rintro ⟨u, hu, hm⟩
          rcases List.mem_cons.mp hu with rfl | h
          · rcases hm with h | h | h
            · exact absurd h h1
            · exact absurd (Or.inl h) h2
            · exact absurd (Or.inr h) h2
          · exact ⟨u, h, hm⟩

theorem fromStr_ok_iff (request : String) :
    (∃ v, Version.fromStr request = .ok v) ↔
      (∃ p, splitOnceStr request "\r\n" = some p ∧
        ∃ t ∈ asciiTokens p.1,
          t = "HTTP/1.1" ∨ t = "HTTP/2" ∨ t = "HTTP/2.0") := by
  unfold Version.fromStr
  cases hsp : splitOnceStr request "\r\n" with
  | none => simp [hsp]
  | some p =>
    obtain ⟨line, rest⟩ := p
    dsimp only
    cases hscan : scanVersion (asciiTokens line) with
    | none =>
      have hno : ¬ ∃ t ∈ asciiTokens line,
          t = "HTTP/1.1" ∨ t = "HTTP/2" ∨ t = "HTTP/2.0" := by
        rw [← scanVersion_eq_some_iff]
        rintro ⟨v, hv⟩
        rw [hscan] at hv
        exact Option.noConfusion hv
      simp [hscan, hno]
    | some v =>
      have hyes : ∃ t ∈ asciiTokens line,
          t = "HTTP/1.1" ∨ t = "HTTP/2" ∨ t = "HTTP/2.0" :=
        (scanVersion_eq_some_iff (asciiTokens line)).mp ⟨v, hscan⟩
      simp [hscan, hyes]

theorem fromStr_error_msg (request : String) (e : VersionError)
    (h : Version.fromStr request = .error e) :
    e = { msg := "Unknown protocol version in " ++ request } := by
  unfold Version.fromStr at h
  cases hsp : splitOnceStr request "\r\n" with
  | none =>
    rw [hsp] at h
    cases h
    rfl
  | some p =>
    obtain ⟨line, rest⟩ := p
    rw [hsp] at h
    dsimp only at h
    cases hscan : scanVersion (asciiTokens line) with
    | none =>
      rw [hscan] at h
      cases h
      rfl
    | some v =>
      rw [hscan] at h
      cases h

/-- C3 (amended): request construction produces a parsed version exactly when
some whitespace-separated token of the request line (the part before the
first CRLF) is `HTTP/1.1`, `HTTP/2` or `HTTP/2.0` — `HTTP/1.0` is NOT
accepted — and otherwise construction fails with the version error carrying
the original request, never a default version. -/
theorem request_ok_iff_version_token (request : String) :
    ((∃ r, HttpRequest.new request = .ok r) ↔
      (∃ p, splitOnceStr request "\r\n" = some p ∧
        ∃ t ∈ asciiTokens p.1,
          t = "HTTP/1.1" ∨ t = "HTTP/2" ∨ t = "HTTP/2.0")) ∧
    ((¬ ∃ r, HttpRequest.new request = .ok r) →
      HttpRequest.new request =
        .error (.invalidData ("Unknown protocol version in " ++ request))) := by
  cases hv : Version.fromStr request with
  | ok v =>
    have hok : ∃ r, HttpRequest.new request = .ok r := by
      unfold HttpRequest.new Version.new
      rw [hv]
      exact ⟨_, rfl⟩
    constructor
    · rw [iff_true_intro hok, true_iff]
      exact (fromStr_ok_iff request).mp ⟨v, hv⟩
    · intro hno
      exact absurd hok hno
  | error e =>
    have herr : HttpRequest.new request = .error (.invalidData e.msg) := by
      unfold HttpRequest.new Version.new
      rw [hv]
    have hmsg : e = { msg := "Unknown protocol version in " ++ request } :=
      fromStr_error_msg request e hv
    constructor
    · constructor
      · rintro ⟨r, hr⟩
        rw [herr] at hr
        exact Except.noConfusion hr
      · intro hex
        have hsome : ∃ v, Version.fromStr request = .ok v :=
          (fromStr_ok_iff request).mpr hex
        rcases hsome with ⟨v, hv2⟩
        rw [hv] at hv2
        exact Except.noConfusion hv2
    · intro _
      rw [herr, hmsg]

/-- Counterexample for C3: `HTTP/1.0` is one of the four strings the claim
says are accepted, it is a whitespace token of the request line, yet request
construction fails with a version error instead of producing a parsed
version. -/
theorem version10_rejected :
    "HTTP/1.0" ∈ asciiTokens "GET / HTTP/1.0" ∧
    HttpRequest.new "GET / HTTP/1.0\r\n\r\n" =
      .error (.invalidData ("Unknown protocol version in GET / HTTP/1.0\r\n\r\n")) := by
  constructor
  · decide
  · rfl

/-! ## Claim C7: the stored resource path -/

/-- C7 (amended): the stored resource path is the text strictly between the
first and the second space character of the request line, with leading
slashes stripped; when the request line has fewer than two space characters
(or the request has no CRLF at all) the resource parse yields nothing and
the stored path defaults to the empty string without an error. -/
theorem resource_path_rule :
    (∀ m p rest more : String, ' ' ∉ m.data → ' ' ∉ p.data →
      '\r' ∉ (m ++ (" " ++ (p ++ (" " ++ rest)))).data →
      Resource.new ((m ++ (" " ++ (p ++ (" " ++ rest)))) ++ ("\r\n" ++ more)) =
        some { path := trimStartSlashes p }) ∧
    (∀ m rest more : String, ' ' ∉ m.data → ' ' ∉ rest.data →
      '\r' ∉ (m ++ (" " ++ rest)).data →
      Resource.new ((m ++ (" " ++ rest)) ++ ("\r\n" ++ more)) = none) ∧
    (∀ request : String, '\r' ∉ request.data → Resource.new request = none) ∧
    (∀ request : String, ∀ r, Resource.new request = none →
      HttpRequest.new request = .ok r → r.resource.path = "") := by
  refine ⟨?_, ?_, ?_, ?_⟩
  · intro m p rest more hm hp hline
    unfold Resource.new
    rw [splitOnceStr_append_sep (m ++ (" " ++ (p ++ (" " ++ rest)))) "\r\n" more
      '\r' ['\n'] rfl hline]
    dsimp only [Option.bind]
    rw [splitOnceStr_append_sep m " " (p ++ (" " ++ rest)) ' ' [] rfl hm]
    dsimp only [Option.bind]
    rw [splitOnceStr_append_sep p " " rest ' ' [] rfl hp]
    rfl
  · intro m rest more hm hrest hline
    unfold Resource.new
    rw [splitOnceStr_append_sep (m ++ (" " ++ rest)) "\r\n" more '\r' ['\n'] rfl hline]
    dsimp only [Option.bind]
    rw [splitOnceStr_append_sep m " " rest ' ' [] rfl hm]
    dsimp only [Option.bind]
    rw [splitOnceStr_eq_none rest " " ' ' [] rfl hrest]
    rfl
  · intro request hr
    unfold Resource.new
    rw [splitOnceStr_eq_none request "\r\n" '\r' ['\n'] rfl hr]
    rfl
  · intro request r hnone hok
    unfold HttpRequest.new at hok
    rw [hnone] at hok
    cases hv : Version.new request with
    | error e =>
      rw [hv] at hok
      exact Except.noConfusion hok
    | ok v =>
      rw [hv] at hok
      dsimp only at hok
      cases hok
      rfl

/-- Witness for C7: the three-field request line `GET /x HTTP/1.1` stores the
path `x` (the slash-stripped text between the two spaces), and a line with a
single space stores nothing. -/
theorem resource_path_rule_witness :
    Resource.new (("GET" ++ (" " ++ ("/x" ++ (" " ++ "HTTP/1.1")))) ++ ("\r\n" ++ "")) =
      some { path := trimStartSlashes "/x" } ∧
    Resource.new (("GET" ++ (" " ++ "/x")) ++ ("\r\n" ++ "")) = none :=
  ⟨resource_path_rule.1 "GET" "/x" "HTTP/1.1" "" (by decide) (by decide) (by decide),
   resource_path_rule.2.1 "GET" "/x" "" (by decide) (by decide) (by decide)⟩

/-- Counterexample for C7: in the request line `GET\t/x HTTP/1.1` the second
whitespace-delimited token is `/x` (so the claim predicts the stored path
`x`), request construction succeeds, but the stored path is the empty string
because the code splits on literal space characters only. -/
theorem tab_request_counterexample :
    asciiTokens "GET\t/x HTTP/1.1" = ["GET", "/x", "HTTP/1.1"] ∧
    trimStartSlashes "/x" = "x" ∧
    (∃ r, HttpRequest.new "GET\t/x HTTP/1.1\r\n\r\n" = .ok r ∧
      r.resource.path = "") ∧
    ("" : String) ≠ "x" := by
  exact ⟨by decide, rfl, ⟨reqTab, by rfl, rfl⟩, by decide⟩

/-! ## Claim C4: content_length equals the body's byte length -/

/-- C4: every response the builder returns — traversal-blocked, file,
directory listing or not-found — carries a content_length equal to the exact
byte length of its body. -/
theorem content_length_matches (sniff : List Nat → Option String) (fs : FsNode)
    (serverRoot : List String) (request : HttpRequest) (r : HttpResponse)
    (h : HttpResponse.new sniff fs serverRoot request = .ok r) :
    r.content_length = r.response_body.length := by
  unfold HttpResponse.new at h
  dsimp only at h
  split at h
  · exact Except.noConfusion h
  · split at h
    · exact Except.noConfusion h
    · split at h
      · cases h
        rfl
      · split at h
        · cases h
          rfl
        · cases h
          rfl
        · cases h
          rfl

/-- Witness for C4: the readme response has content_length 5 and a 5-byte
body. -/
theorem content_length_matches_witness :
    HttpResponse.new inferGet fsReadme [] reqReadme = .ok respReadme ∧
    respReadme.content_length = respReadme.response_body.length :=
  ⟨by rfl, content_length_matches inferGet fsReadme [] reqReadme respReadme (by rfl)⟩

/-! ## Claims C8 and C5: the file branch -/

theorem new_file_eq (sniff : List Nat → Option String) (fs : FsNode)
    (serverRoot : List String) (request : HttpRequest)
    (rootCanon resCanon : List String) (content : List Nat)
    (h1 : canonicalize fs serverRoot = some rootCanon)
    (h2 : canonicalize fs (joinPath serverRoot
      ⟨percentDecodeChars request.resource.path.data⟩) = some resCanon)
    (h3 : ¬ rustComponentCount rootCanon > rustComponentCount resCanon)
    (h4 : FsNode.lookupPath fs resCanon = some (.file content)) :
    HttpResponse.new sniff fs serverRoot request =
      .ok { version := Version.V1_1, status := ResponseStatus.OK,
            content_length := content.length,
            accept_ranges := AcceptRanges.Bytes, response_body := content,
            current_path := request.resource.path,
            content_type := classify sniff content (pathExtension (joinPath serverRoot
              ⟨percentDecodeChars request.resource.path.data⟩)) } := by
  unfold HttpResponse.new
  dsimp only
  simp only [h1, h2, h4]
  rw [if_neg h3]

/-- C8: a regular-file target inside the root yields status OK, Accept-Ranges
Bytes, the complete file content as body, content_length equal to the file's
byte length, and a content type classified from the file bytes and
extension. -/
theorem file_target_response (sniff : List Nat → Option String) (fs : FsNode)
    (serverRoot : List String) (request : HttpRequest)
    (rootCanon resCanon : List String) (content : List Nat)
    (h1 : canonicalize fs serverRoot = some rootCanon)
    (h2 : canonicalize fs (joinPath serverRoot
      ⟨percentDecodeChars request.resource.path.data⟩) = some resCanon)
    (h3 : ¬ rustComponentCount rootCanon > rustComponentCount resCanon)
    (h4 : FsNode.lookupPath fs resCanon = some (.file content)) :
    HttpResponse.new sniff fs serverRoot request =
      .ok { version := Version.V1_1, status := ResponseStatus.OK,
            content_length := content.length,
            accept_ranges := AcceptRanges.Bytes, response_body := content,
            current_path := request.resource.path,
            content_type := classify sniff content (pathExtension (joinPath serverRoot
              ⟨percentDecodeChars request.resource.path.data⟩)) } :=
  new_file_eq sniff fs serverRoot request rootCanon resCanon content h1 h2 h3 h4

/-- Witness for C8: the spec's end-to-end example — `GET /readme.txt` against
a root holding `readme.txt` with content `hello` gives OK, content_length 5,
body `hello`, content type `text/plain`. -/
theorem file_target_response_witness :
    HttpRequest.new "GET /readme.txt HTTP/1.1\r\nHost: x\r\n\r\n" = .ok reqReadme ∧
    canonicalize fsReadme [] = some [] ∧
    canonicalize fsReadme (joinPath []
      ⟨percentDecodeChars reqReadme.resource.path.data⟩) = some ["readme.txt"] ∧
    ¬ rustComponentCount [] > rustComponentCount ["readme.txt"] ∧
    FsNode.lookupPath fsReadme ["readme.txt"] = some (.file (strBytes "hello")) ∧
    HttpResponse.new inferGet fsReadme [] reqReadme = .ok respReadme :=
  ⟨by rfl, rfl, by rfl, by decide, by rfl,
    file_target_response inferGet fsReadme [] reqReadme [] ["readme.txt"]
      (strBytes "hello") rfl (by rfl) (by decide) (by rfl)⟩

/-- C5: for a served file, classification follows the ordered fallback:
whatever magic-number sniffing returns is used even when the extension is on
the text allow-list; only when sniffing fails does the allow-list give
`text/plain`, and otherwise the type is `application/octet-stream`. -/
theorem classify_ordered (sniff : List Nat → Option String) (fs : FsNode)
    (serverRoot : List String) (request : HttpRequest)
    (rootCanon resCanon : List String) (content : List Nat)
    (h1 : canonicalize fs serverRoot = some rootCanon)
    (h2 : canonicalize fs (joinPath serverRoot
      ⟨percentDecodeChars request.resource.path.data⟩) = some resCanon)
    (h3 : ¬ rustComponentCount rootCanon > rustComponentCount resCanon)
    (h4 : FsNode.lookupPath fs resCanon = some (.file content)) :
    ∃ r, HttpResponse.new sniff fs serverRoot request = .ok r ∧
      (∀ t, sniff content = some t → r.content_type = t) ∧
      (sniff content = none →
        ∀ e, pathExtension (joinPath serverRoot
            ⟨percentDecodeChars request.resource.path.data⟩) = some e →
          e ∈ textExtensions → r.content_type = "text/plain") ∧
      (sniff content = none →
        (∀ e, pathExtension (joinPath serverRoot
            ⟨percentDecodeChars request.resource.path.data⟩) = some e →
          e ∉ textExtensions) → r.content_type = "application/octet-stream") := by
  refine ⟨_, new_file_eq sniff fs serverRoot request rootCanon resCanon content h1 h2 h3 h4,
    ?_, ?_, ?_⟩
  · intro t ht
    dsimp only
    unfold classify
    rw [ht]
  · intro hn e he hm
    dsimp only
    unfold classify
    rw [hn, he]
    dsimp only
    rw [if_pos hm]
  · intro hn hne
    dsimp only
    unfold classify
    rw [hn]
    cases hpe : pathExtension (joinPath serverRoot
        ⟨percentDecodeChars request.resource.path.data⟩) with
    | none => rfl
    | some e =>
      dsimp only
      rw [if_neg (hne e hpe)]

/-- Witness for C5: a file with a PNG magic number but a `.txt` extension —
the extension is on the allow-list, yet the sniffed type `image/png` wins. -/
theorem classify_ordered_witness :
    inferGet pngBytes = some "image/png" ∧
    pathExtension (joinPath []
      ⟨percentDecodeChars reqPng.resource.path.data⟩) = some "txt" ∧
    "txt" ∈ textExtensions ∧
    (∃ r, HttpResponse.new inferGet fsPng [] reqPng = .ok r ∧
      r.content_type = "image/png") := by
  refine ⟨rfl, by rfl, by decide, ?_⟩
  obtain ⟨r, hr, hfirst, _, _⟩ := classify_ordered inferGet fsPng [] reqPng []
    ["image.txt"] pngBytes rfl (by rfl) (by decide) (by rfl)
  exact ⟨r, hr, hfirst "image/png" rfl⟩

/-! ## Claim C6: directory listings -/

theorem splitWhen_ne_nil (p : Char → Bool) (l : List Char) : splitWhen p l ≠ [] := by
  induction l with
  | nil => simp [splitWhen]
  | cons c cs ih =>
    simp only [splitWhen]
    split
    · simp
    · cases h : splitWhen p cs with
      | nil => exact absurd h ih
      | cons hd tl => simp [List.modifyHead]

theorem splitChar_of_not_mem (sep : Char) (b : List Char) (hb : sep ∉ b) :
    splitChar sep b = [b] := by
  induction b with
  | nil => rfl
  | cons c cs ih =>
    have hc : ¬ (c = sep) := fun h => hb (h ▸ List.mem_cons_self c cs)
    have htail : sep ∉ cs := fun h => hb (List.mem_cons_of_mem c h)
    simp only [splitChar, splitWhen] at *
    rw [if_neg (by simp [hc])]
    rw [ih htail]
    simp [List.modifyHead]

theorem modifyHead_append_of_ne_nil (f : List Char → List Char)
    (xs ys : List (List Char)) (h : xs ≠ []) :
    (xs ++ ys).modifyHead f = xs.modifyHead f ++ ys := by
  cases xs with
  | nil => exact absurd rfl h
  | cons x xt => simp [List.modifyHead]

theorem splitChar_ne_nil (sep : Char) (l : List Char) : splitChar sep l ≠ [] :=
  splitWhen_ne_nil _ l

theorem splitChar_append (sep : Char) (a b : List Char) (hb : sep ∉ b) :
    splitChar sep (a ++ sep :: b) = splitChar sep a ++ [b] := by
  induction a with
  | nil =>
    simp only [List.nil_append, splitChar, splitWhen]
    rw [if_pos (by simp)]
    have hrest : splitWhen (fun x => x = sep) b = [b] := splitChar_of_not_mem sep b hb
    rw [hrest]
    rfl
  | cons c a ih =>
    by_cases hc : c = sep
    · subst hc
      simp only [List.cons_append, splitChar, splitWhen, List.append_eq] at *
      rw [if_pos (by simp), if_pos (by simp)]
      rw [ih]
      rfl
    · simp only [List.cons_append, splitChar, splitWhen, List.append_eq] at *
      rw [if_neg (by simp [hc]), if_neg (by simp [hc])]
      rw [ih]
      rw [modifyHead_append_of_ne_nil _ _ _ (splitWhen_ne_nil _ a)]

theorem joinSep_modifyHead (sep c : Char) (ls : List (List Char)) (h : ls ≠ []) :
    joinSep sep (ls.modifyHead (c :: ·)) = c :: joinSep sep ls := by
  cases ls with
  | nil => exact absurd rfl h
  | cons x xt =>
    cases xt with
    | nil => simp [List.modifyHead, joinSep]
    | cons y yt => simp [List.modifyHead, joinSep]

theorem joinSep_splitChar (sep : Char) (l : List Char) :
    joinSep sep (splitChar sep l) = l := by
  induction l with
  | nil => rfl
  | cons c cs ih =>
    by_cases hc : c = sep
    · have hstep : splitChar sep (c :: cs) = [] :: splitChar sep cs := by
        simp only [splitChar, splitWhen]
        rw [if_pos (by simp [hc])]
      rw [hstep]
      cases hsc : splitChar sep cs with
      | nil => exact absurd hsc (splitChar_ne_nil sep cs)
      | cons x xt =>
        have hjoin : joinSep sep ([] :: x :: xt) = sep :: joinSep sep (x :: xt) := rfl
        have htail : joinSep sep (x :: xt) = cs := by
          rw [← hsc]
          exact ih
        rw [hjoin, htail, hc]
    · have hstep : splitChar sep (c :: cs) = (splitChar sep cs).modifyHead (c :: ·) := by
        simp only [splitChar, splitWhen]
        rw [if_neg (by simp [hc])]
      rw [hstep, joinSep_modifyHead sep c _ (splitChar_ne_nil sep cs), ih]

theorem oneStepBack_drops_last_segment (a b : String) (hb : '/' ∉ b.data) :
    oneStepBackPath (a ++ ("/" ++ b)) = a := by
  unfold oneStepBackPath
  have hdata : (a ++ ("/" ++ b)).data = a.data ++ '/' :: b.data := by
    simp [String.data_append]
  rw [hdata]
  rw [splitChar_append '/' a.data b.data hb]
  rw [if_pos (by simp)]
  rw [List.dropLast_concat]
  rw [joinSep_splitChar]

theorem new_dir_eq (sniff : List Nat → Option String) (fs : FsNode)
    (serverRoot : List String) (request : HttpRequest)
    (rootCanon resCanon : List String) (children : List (String × FsNode))
    (h1 : canonicalize fs serverRoot = some rootCanon)
    (h2 : canonicalize fs (joinPath serverRoot
      ⟨percentDecodeChars request.resource.path.data⟩) = some resCanon)
    (h3 : ¬ rustComponentCount rootCanon > rustComponentCount resCanon)
    (h4 : FsNode.lookupPath fs resCanon = some (.dir children)) :
    HttpResponse.new sniff fs serverRoot request =
      .ok { version := Version.V1_1, status := ResponseStatus.OK,
            content_length := (strBytes (dirHtml
              ⟨percentDecodeChars request.resource.path.data⟩ children)).length,
            accept_ranges := AcceptRanges.None,
            response_body := strBytes (dirHtml
              ⟨percentDecodeChars request.resource.path.data⟩ children),
            current_path := request.resource.path,
            content_type := "text/html" } := by
  unfold HttpResponse.new
  dsimp only
  simp only [h1, h2, h4]
  rw [if_neg h3]

/-- C6: a directory target inside the root yields status OK and
`text/html`; the body is the fixed HTML frame around exactly one link per
immediate child of the directory (the link list is a map over the
directory's own child list — depth exactly one, so no grandchild appears),
directory children are labelled with a trailing slash, file children are
not, and the go-up link's target is the requested path with its last
`/`-delimited segment removed. -/
theorem directory_listing_response (sniff : List Nat → Option String) (fs : FsNode)
    (serverRoot : List String) (request : HttpRequest)
    (rootCanon resCanon : List String) (children : List (String × FsNode))
    (resource : String)
    (hres : resource = ⟨percentDecodeChars request.resource.path.data⟩)
    (h1 : canonicalize fs serverRoot = some rootCanon)
    (h2 : canonicalize fs (joinPath serverRoot
      ⟨percentDecodeChars request.resource.path.data⟩) = some resCanon)
    (h3 : ¬ rustComponentCount rootCanon > rustComponentCount resCanon)
    (h4 : FsNode.lookupPath fs resCanon = some (.dir children)) :
    ∃ r, HttpResponse.new sniff fs serverRoot request = .ok r ∧
      r.status = ResponseStatus.OK ∧
      r.content_type = "text/html" ∧
      r.response_body = strBytes (beginHtmlRaw ++ dirHeader resource
        ++ String.join (children.map (childLink resource)) ++ endHtmlRaw) ∧
      (children.map (childLink resource)).length = children.length ∧
      (∀ name sub, childLink resource (name, FsNode.dir sub) =
        "<div><a href=\"" ++ baseUrl ++ "/" ++ (resource ++ "/" ++ encodeComponent name)
          ++ "\">" ++ name ++ "/</a></div>") ∧
      (∀ name bytes, childLink resource (name, FsNode.file bytes) =
        "<div><a href=\"" ++ baseUrl ++ "/" ++ (resource ++ "/" ++ encodeComponent name)
          ++ "\">" ++ name ++ "</a></div>") ∧
      goBackLink resource = "<a href=\"" ++ baseUrl ++ "/"
        ++ encodeComponent (oneStepBackPath resource) ++ "\">Go back up a directory</a>" ∧
      (∀ a b : String, '/' ∉ b.data → oneStepBackPath (a ++ ("/" ++ b)) = a) := by
  subst hres
  refine ⟨_, new_dir_eq sniff fs serverRoot request rootCanon resCanon children h1 h2 h3 h4,
    rfl, rfl, rfl, by simp, fun name sub => rfl, fun name bytes => rfl, rfl,
    fun a b hb => oneStepBack_drops_last_segment a b hb⟩

/-- Witness for C6: listing `docs` (children `a.txt` and `sub/`, with a
grandchild under `sub`) gives OK text/html, two links, no occurrence of the
grandchild's name in the generated page, and a go-up target that drops the
last path segment. -/
theorem directory_listing_response_witness :
    HttpRequest.new "GET /docs HTTP/1.1\r\n\r\n" = .ok reqDocs ∧
    FsNode.lookupPath fsDocs ["docs"] = some (.dir docsChildren) ∧
    (∃ r, HttpResponse.new inferGet fsDocs [] reqDocs = .ok r ∧
      r.status = ResponseStatus.OK ∧ r.content_type = "text/html" ∧
      (docsChildren.map (childLink "docs")).length = 2) ∧
    splitOnceStr (dirHtml "docs" docsChildren) "grand" = none ∧
    oneStepBackPath ("docs" ++ ("/" ++ "sub")) = "docs" := by
  refine ⟨by rfl, by rfl, ?_, by rfl, ?_⟩
  · obtain ⟨r, hr, hok, hct, _, hlen, _, _, _, _⟩ :=
      directory_listing_response inferGet fsDocs [] reqDocs [] ["docs"]
        docsChildren "docs" (by rfl) rfl (by rfl) (by decide) (by rfl)
    refine ⟨r, hr, hok, hct, ?_⟩
    rw [hlen]
    rfl
  · obtain ⟨_, _, _, _, _, _, _, _, _, hup⟩ :=
      directory_listing_response inferGet fsDocs [] reqDocs [] ["docs"]
        docsChildren "docs" (by rfl) rfl (by rfl) (by decide) (by rfl)
    exact hup "docs" "sub" (by decide)

/-! ## Claim C1: traversal containment -/

/-- C1 (code bug): the request path `../secret.txt` contains a `..` segment,
its decoded form joined onto the root `/srv/public` canonicalizes to
`/srv/secret.txt` — outside the root, whose canonical path is not a prefix
of it — yet the component-count containment check does not reject it and
the server serves the outside file's content with status OK. -/
theorem traversal_escape_served :
    HttpRequest.new "GET /../secret.txt HTTP/1.1\r\n\r\n" = .ok reqTraversal ∧
    ".." ∈ pathComponents ⟨percentDecodeChars reqTraversal.resource.path.data⟩ ∧
    canonicalize fsTraversal ["srv", "public"] = some ["srv", "public"] ∧
    canonicalize fsTraversal (joinPath ["srv", "public"]
      ⟨percentDecodeChars reqTraversal.resource.path.data⟩) = some ["srv", "secret.txt"] ∧
    (¬ ["srv", "public"] <+: ["srv", "secret.txt"]) ∧
    (∃ r, HttpResponse.new inferGet fsTraversal ["srv", "public"] reqTraversal = .ok r ∧
      r.status = ResponseStatus.OK ∧ r.response_body = strBytes "top secret") := by
  refine ⟨by rfl, by decide, rfl, by rfl, ?_, ⟨respTraversal, by rfl, rfl, rfl⟩⟩
  rintro ⟨t, ht⟩
  simp at ht

/-! ## Claim C2: the missing-path outcome -/

/-- C2 (code bug): for a requested path that does not exist under the root,
the second `canonicalize()?` of the builder fails, so `HttpResponse::new`
returns an error that crosses the Response Builder boundary; no structured
404 response is produced (the not-found branch of the source is
unreachable). -/
theorem missing_path_error_escapes :
    HttpRequest.new "GET /missing.txt HTTP/1.1\r\n\r\n" = .ok reqMissing ∧
    canonicalize fsReadme (joinPath []
      ⟨percentDecodeChars reqMissing.resource.path.data⟩) = none ∧
    HttpResponse.new inferGet fsReadme [] reqMissing = .error .notFound ∧
    (∀ r, HttpResponse.new inferGet fsReadme [] reqMissing ≠ .ok r) := by
  refine ⟨by rfl, by rfl, by rfl, ?_⟩
  intro r hr
  rw [show HttpResponse.new inferGet fsReadme [] reqMissing = .error .notFound from by rfl] at hr
  exact Except.noConfusion hr

/-- Witness for C3: a request line carrying the token `HTTP/1.1` makes
construction succeed. -/
theorem request_ok_iff_version_token_witness :
    (∃ p, splitOnceStr "GET / HTTP/1.1\r\n\r\n" "\r\n" = some p ∧
      ∃ t ∈ asciiTokens p.1,
        t = "HTTP/1.1" ∨ t = "HTTP/2" ∨ t = "HTTP/2.0") ∧
    (∃ r, HttpRequest.new "GET / HTTP/1.1\r\n\r\n" = .ok r) :=
  ⟨⟨("GET / HTTP/1.1", "\r\n"), by rfl, "HTTP/1.1", by decide, Or.inl rfl⟩,
   (request_ok_iff_version_token "GET / HTTP/1.1\r\n\r\n").1.mpr
     ⟨("GET / HTTP/1.1", "\r\n"), by rfl, "HTTP/1.1", by decide, Or.inl rfl⟩⟩
